import Mathlib

/-!
Verification of the EGTS transport-layer header codec (`egts_pkg.go`).

The Go source defines the header structure `EgtsPkgHeader`, its serializer
`ToBytes`, and the (stubbed) checksum routine `CalcCRC8`.  We embed these
shallowly: machine integers become `Nat` with explicit `% 256` / `% 65536`
where a byte or uint16 is written to the wire; the Go pair
`([]byte, error)` becomes an explicit product with an `Option` error; the
receiver mutation performed by `CalcCRC8` is made explicit by returning the
updated header.

`bitsToByte` is called by `ToBytes` but its body lives in a file of the
repository that is not part of the source under examination; it is modelled
from the spec (see its doc comment).  The decode path and the packet-level
codec do not exist in the source at all; where a claim needs them they are
modelled from the spec and marked as such.
-/

/-- Errors of the encode path.  The spec's error taxonomy names
`InvalidField` for out-of-range field values. -/
inductive EgtsError where
  | InvalidField
deriving DecidableEq, Repr

/-- Errors of the (spec-modelled) decode path, per the spec's taxonomy. -/
inductive DecodeError where
  | Truncated
  | ChecksumMismatch
  | UnsupportedVersion
  | PayloadChecksumMismatch
deriving DecidableEq, Repr

/-- The transport-layer header, mirroring the Go struct `EgtsPkgHeader`
field for field.  Go's `byte`/`uint8` fields hold values `< 256` and
`uint16` fields hold values `< 65536`; here all fields are `Nat` and the
wire-writing functions reduce modulo the field width exactly where the Go
runtime would. -/
structure EgtsPkgHeader where
  PRV : Nat
  SKID : Nat
  PRF : Nat
  RTE : Nat
  ENA : Nat
  CMP : Nat
  PR : Nat
  HL : Nat
  HE : Nat
  FDL : Nat
  PID : Nat
  PT : Nat
  PRA : Nat
  RCA : Nat
  TTL : Nat
  HCS : Nat
deriving DecidableEq, Repr

/-- `binary.Write` of a one-byte value: the low 8 bits. -/
def u8 (n : Nat) : Nat := n % 256

/-- `binary.Write` of a `uint16` in little-endian order: low byte first. -/
def u16le (n : Nat) : List Nat := [n % 256, n / 256 % 256]

/-- Binary digits of `n`, most significant first, computed with explicit
fuel so that the definition is structural (fuel `n` always suffices since
the number of binary digits of `n` is at most `n` for `n ≥ 1`). -/
def bitsOf : Nat → Nat → List Bool
  | 0, _ => []
  | fuel + 1, n => if n = 0 then [] else bitsOf fuel (n / 2) ++ [n % 2 == 1]

/-- Minimal binary representation of `n`, most significant bit first
(empty for `0`). -/
def natBits (n : Nat) : List Bool := bitsOf n n

/-- The bit string produced by Go's `fmt.Sprintf("%0wb", n)`: the binary
digits of `n`, left-padded with zeros to a minimum width `w` (never
truncated, so an oversized value yields more than `w` characters). -/
def padBits (w n : Nat) : List Bool :=
  List.replicate (w - (natBits n).length) false ++ natBits n

/-- The flags string built at line 101 of the source:
`fmt.Sprintf("%02b%01b%02b%01b%02b", h.PRF, h.RTE, h.ENA, h.CMP, h.PR)`. -/
def flagsBits (h : EgtsPkgHeader) : List Bool :=
  padBits 2 h.PRF ++ padBits 1 h.RTE ++ padBits 2 h.ENA ++
    padBits 1 h.CMP ++ padBits 2 h.PR

/-- Modelled from the spec: `bitsToByte` is defined in a repository file
outside the examined source.  Per the spec's Bit-Field Packing contract
(§4.2) and design note §9, the conversion of the formatted bit string to a
byte rejects a malformed string — one whose length is not exactly 8 bits,
which is precisely what the `%0wb` formatting produces when a field value
overflows its declared width — with an `InvalidField`-class error, and
otherwise returns the byte whose bits are the string read most significant
bit first.  Result is Go-style: a value together with an optional error. -/
def bitStep (a : Nat) (b : Bool) : Nat := 2 * a + if b then 1 else 0

def bitsToByte (bs : List Bool) : Nat × Option EgtsError :=
  if bs.length = 8 then
    (bs.foldl bitStep 0, none)
  else
    (0, some .InvalidField)

/-- The stubbed checksum routine (source lines 155-160): it ignores the
header bytes and overwrites the receiver's `HCS` field with the constant
`202`, returning a nil error (the error is always nil, so it is omitted). -/
def CalcCRC8 (h : EgtsPkgHeader) : EgtsPkgHeader := { h with HCS := 202 }

/-- `ToBytes` (source lines 88-153).  Writes `PRV`, `SKID`, the flags byte,
`HL`, `HE`, `FDL` (LE), `PID` (LE), `PT`, then — unconditionally — `PRA`
(LE), `RCA` (LE), `TTL`, then calls `CalcCRC8` on the receiver and writes
the resulting `HCS`.  `binary.Write` to a `bytes.Buffer` cannot fail, so
the only error source is `bitsToByte`; on that error the function returns
the initial empty `result` slice with the receiver untouched.  The result
is the written byte list, the receiver's post-state, and the Go error. -/
def ToBytes (h : EgtsPkgHeader) : List Nat × EgtsPkgHeader × Option EgtsError :=
  match bitsToByte (flagsBits h) with
  | (_, some e) => ([], h, some e)
  | (fb, none) =>
    let h2 := CalcCRC8 h
    ([u8 h.PRV, u8 h.SKID, u8 fb, u8 h.HL, u8 h.HE] ++ u16le h.FDL ++
      u16le h.PID ++ [u8 h.PT] ++ u16le h.PRA ++ u16le h.RCA ++
      [u8 h.TTL, u8 h2.HCS], h2, none)

/-! ### Helper lemmas about the formatted bit string and the flags byte -/

set_option maxRecDepth 8000

lemma padBits_length_ge (w n : Nat) : w ≤ (padBits w n).length := by
  simp [padBits]
  omega

lemma padBits2_length_of_gt :
    ∀ n, n < 256 → 3 < n → 3 ≤ (padBits 2 n).length := by decide

lemma padBits1_length_of_gt :
    ∀ n, n < 256 → 1 < n → 2 ≤ (padBits 1 n).length := by decide

lemma bitsToByte_of_length_ne (bs : List Bool) (hbs : bs.length ≠ 8) :
    bitsToByte bs = (0, some .InvalidField) := by
  simp [bitsToByte, hbs]

lemma foldl_bitStep (bs : List Bool) (a : Nat) :
    bs.foldl bitStep a = a * 2 ^ bs.length + bs.foldl bitStep 0 := by
  induction bs generalizing a with
  | nil => simp
  | cons b bs ih =>
    simp only [List.foldl_cons, List.length_cons]
    rw [ih (bitStep a b), ih (bitStep 0 b)]
    simp only [bitStep]
    cases b <;> simp <;> ring

lemma foldl_bitStep_append (xs ys : List Bool) :
    (xs ++ ys).foldl bitStep 0 =
      xs.foldl bitStep 0 * 2 ^ ys.length + ys.foldl bitStep 0 := by
  rw [List.foldl_append, foldl_bitStep]

lemma padBits2_spec :
    ∀ n, n < 4 → (padBits 2 n).length = 2 ∧ (padBits 2 n).foldl bitStep 0 = n := by
  decide

lemma padBits1_spec :
    ∀ n, n < 2 → (padBits 1 n).length = 1 ∧ (padBits 1 n).foldl bitStep 0 = n := by
  decide

lemma flags_value (a b c d e : Nat) (ha : a < 4) (hb : b < 2) (hc : c < 4)
    (hd : d < 2) (he : e < 4) :
    bitsToByte (padBits 2 a ++ padBits 1 b ++ padBits 2 c ++
        padBits 1 d ++ padBits 2 e) =
      (a * 64 + b * 32 + c * 8 + d * 4 + e, none) := by
  obtain ⟨la, va⟩ := padBits2_spec a ha
  obtain ⟨lb, vb⟩ := padBits1_spec b hb
  obtain ⟨lc, vc⟩ := padBits2_spec c hc
  obtain ⟨ld, vd⟩ := padBits1_spec d hd
  obtain ⟨le, ve⟩ := padBits2_spec e he
  have hv : (padBits 2 a ++ padBits 1 b ++ padBits 2 c ++ padBits 1 d ++
      padBits 2 e).foldl bitStep 0 = a * 64 + b * 32 + c * 8 + d * 4 + e := by
    rw [foldl_bitStep_append _ (padBits 2 e), foldl_bitStep_append _ (padBits 1 d),
      foldl_bitStep_append _ (padBits 2 c), foldl_bitStep_append _ (padBits 1 b)]
    rw [va, vb, vc, vd, ve, lb, lc, ld, le]
    ring
  have hlen : (padBits 2 a ++ padBits 1 b ++ padBits 2 c ++ padBits 1 d ++
      padBits 2 e).length = 8 := by
    simp [List.length_append, la, lb, lc, ld, le]
  unfold bitsToByte
  rw [if_pos hlen, hv]

/-- When every bit field is within its declared width, `ToBytes` succeeds
and the produced bytes are fully determined. -/
lemma toBytes_of_inrange (h : EgtsPkgHeader) (h1 : h.PRF < 4) (h2 : h.RTE < 2)
    (h3 : h.ENA < 4) (h4 : h.CMP < 2) (h5 : h.PR < 4) :
    ToBytes h =
      ([u8 h.PRV, u8 h.SKID,
        h.PRF * 64 + h.RTE * 32 + h.ENA * 8 + h.CMP * 4 + h.PR,
        u8 h.HL, u8 h.HE] ++ u16le h.FDL ++ u16le h.PID ++ [u8 h.PT] ++
        u16le h.PRA ++ u16le h.RCA ++ [u8 h.TTL, 202], CalcCRC8 h, none) := by
  have hlt : h.PRF * 64 + h.RTE * 32 + h.ENA * 8 + h.CMP * 4 + h.PR < 256 := by
    omega
  have hv : bitsToByte (flagsBits h) =
      (h.PRF * 64 + h.RTE * 32 + h.ENA * 8 + h.CMP * 4 + h.PR, none) := by
    simp only [flagsBits]
    exact flags_value h.PRF h.RTE h.ENA h.CMP h.PR h1 h2 h3 h4 h5
  simp only [ToBytes, hv]
  simp [u8, CalcCRC8, Nat.mod_eq_of_lt hlt]

/-- When some bit field overflows its declared width, the formatted bit
string is longer than 8 characters, `bitsToByte` rejects it, and `ToBytes`
returns the empty slice, the untouched receiver and the error. -/
lemma toBytes_of_overflow (h : EgtsPkgHeader)
    (hbd : h.PRF < 256 ∧ h.RTE < 256 ∧ h.ENA < 256 ∧ h.CMP < 256 ∧ h.PR < 256)
    (hout : 3 < h.PRF ∨ 1 < h.RTE ∨ 3 < h.ENA ∨ 1 < h.CMP ∨ 3 < h.PR) :
    ToBytes h = ([], h, some .InvalidField) := by
  have hlen : (flagsBits h).length ≠ 8 := by
    have g1 := padBits_length_ge 2 h.PRF
    have g2 := padBits_length_ge 1 h.RTE
    have g3 := padBits_length_ge 2 h.ENA
    have g4 := padBits_length_ge 1 h.CMP
    have g5 := padBits_length_ge 2 h.PR
    simp only [flagsBits, List.length_append]
    rcases hout with ho | ho | ho | ho | ho
    · have := padBits2_length_of_gt h.PRF hbd.1 ho; omega
    · have := padBits1_length_of_gt h.RTE hbd.2.1 ho; omega
    · have := padBits2_length_of_gt h.ENA hbd.2.2.1 ho; omega
    · have := padBits1_length_of_gt h.CMP hbd.2.2.2.1 ho; omega
    · have := padBits2_length_of_gt h.PR hbd.2.2.2.2 ho; omega
  simp [ToBytes, bitsToByte_of_length_ne _ hlen]

/-! ### Concrete headers used as test inputs -/

/-- An all-zero header with the consistent `HL = 11` for `RTE = 0`. -/
def hdr0 : EgtsPkgHeader :=
  { PRV := 0, SKID := 0, PRF := 0, RTE := 0, ENA := 0, CMP := 0, PR := 0,
    HL := 11, HE := 0, FDL := 0, PID := 0, PT := 0, PRA := 0, RCA := 0,
    TTL := 0, HCS := 0 }

/-- A realistic header with `RTE = 0` but nonzero routing fields, so that
the routing bytes are visible in the output if they are written. -/
def hdrRte0 : EgtsPkgHeader :=
  { PRV := 1, SKID := 0, PRF := 0, RTE := 0, ENA := 0, CMP := 0, PR := 0,
    HL := 11, HE := 0, FDL := 0, PID := 1, PT := 1, PRA := 7, RCA := 9,
    TTL := 5, HCS := 0 }

/-- A header whose `PR` field overflows its 2-bit width. -/
def hdrPR4 : EgtsPkgHeader :=
  { PRV := 1, SKID := 0, PRF := 0, RTE := 0, ENA := 0, CMP := 0, PR := 4,
    HL := 11, HE := 0, FDL := 0, PID := 1, PT := 1, PRA := 0, RCA := 0,
    TTL := 0, HCS := 0 }

/-- A header whose `HL` field (0) is inconsistent with `RTE = 0`. -/
def hdrHL0 : EgtsPkgHeader :=
  { PRV := 1, SKID := 0, PRF := 0, RTE := 0, ENA := 0, CMP := 0, PR := 0,
    HL := 0, HE := 0, FDL := 0, PID := 0, PT := 0, PRA := 0, RCA := 0,
    TTL := 0, HCS := 0 }

/-! ### Claims -/

/-- C1: the claim says the final HCS byte appended by `ToBytes` is a CRC-8
function of the header bytes written before it, so that two headers with
differing preceding bytes can have differing HCS bytes.  On the code this
is false: `CalcCRC8` is a stub and the appended HCS byte is the constant
`202` for every successfully encoded header, whatever the preceding bytes
are.  This theorem proves the constant-ness, refuting the claim's
existence part. -/
theorem C1_hcs_is_constant_202 (h : EgtsPkgHeader) (bs : List Nat)
    (h' : EgtsPkgHeader) (hok : ToBytes h = (bs, h', none)) :
    bs.getLast? = some 202 := by
  unfold ToBytes at hok
  rcases hbt : bitsToByte (flagsBits h) with ⟨v, oe⟩
  rw [hbt] at hok
  cases oe with
  | some e => simp at hok
  | none =>
    simp only [Prod.mk.injEq] at hok
    obtain ⟨hbs, -, -⟩ := hok
    rw [← hbs]
    simp [CalcCRC8, u8, u16le]

theorem C1_hcs_is_constant_202_witness :
    ([0, 0, 0, 11, 0, 0, 0, 0, 0, 0, 0, 0, 0, 0, 0, 202] :
      List Nat).getLast? = some 202 :=
  C1_hcs_is_constant_202 hdr0 _ (CalcCRC8 hdr0) (by decide)

/-- C2: the claim says the routing fields PRA, RCA, TTL appear in the
output iff `RTE = 1`.  On the code this is false: `ToBytes` writes them
unconditionally.  Here a header with `RTE = 0` and `PRA = 7`, `RCA = 9`,
`TTL = 5` encodes successfully and the five routing bytes appear at
offsets 10-14, between PT (offset 9) and HCS (offset 15). -/
theorem C2_routing_block_always_written :
    ToBytes hdrRte0 =
      ([1, 0, 0, 11, 0, 0, 0, 1, 0, 1, 7, 0, 9, 0, 5, 202],
        CalcCRC8 hdrRte0, none) := by decide

/-- C3 counterexample: the claim says a successfully encoded `RTE = 0`
header serializes to 11 bytes; `hdrRte0` has `RTE = 0`, encodes without
error, and the result has length 16, not 11. -/
theorem C3_cex_length_not_eleven :
    (ToBytes hdrRte0).2.2 = none ∧ (ToBytes hdrRte0).1.length ≠ 11 := by
  decide

/-- C3 (amended): every successfully encoded header serializes to exactly
16 bytes regardless of RTE, because `ToBytes` always writes the routing
fields PRA (2 bytes), RCA (2 bytes) and TTL (1 byte). -/
theorem C3_length_always_sixteen (h : EgtsPkgHeader) (bs : List Nat)
    (h' : EgtsPkgHeader) (hok : ToBytes h = (bs, h', none)) :
    bs.length = 16 := by
  unfold ToBytes at hok
  rcases hbt : bitsToByte (flagsBits h) with ⟨v, oe⟩
  rw [hbt] at hok
  cases oe with
  | some e => simp at hok
  | none =>
    simp only [Prod.mk.injEq] at hok
    obtain ⟨hbs, -, -⟩ := hok
    rw [← hbs]
    simp [u16le]

theorem C3_length_always_sixteen_witness :
    ([1, 0, 0, 11, 0, 0, 0, 1, 0, 1, 7, 0, 9, 0, 5, 202] :
      List Nat).length = 16 :=
  C3_length_always_sixteen hdrRte0 _ (CalcCRC8 hdrRte0) (by decide)

/-- C4: a header in which some bit field exceeds its declared width (with
every bit field still a representable `uint8` value, as in Go) is rejected:
the formatted bit string is longer than 8 characters, `bitsToByte` fails
with `InvalidField`, and `ToBytes` returns the empty slice and the error —
it never silently masks the value. -/
theorem C4_overflow_invalid_field (h : EgtsPkgHeader)
    (hbd : h.PRF < 256 ∧ h.RTE < 256 ∧ h.ENA < 256 ∧ h.CMP < 256 ∧
      h.PR < 256)
    (hout : 3 < h.PRF ∨ 1 < h.RTE ∨ 3 < h.ENA ∨ 1 < h.CMP ∨ 3 < h.PR) :
    ToBytes h = ([], h, some .InvalidField) :=
  toBytes_of_overflow h hbd hout

theorem C4_overflow_invalid_field_witness :
    ToBytes hdrPR4 = ([], hdrPR4, some EgtsError.InvalidField) :=
  C4_overflow_invalid_field hdrPR4 (by decide) (by decide)

/-- C5: the claim says a header whose `HL` does not match the byte count
implied by `RTE` is rejected with `InvalidField`.  On the code this is
false: `ToBytes` never examines `HL`.  Here a header with `HL = 0` and
`RTE = 0` (0 is neither 11 nor any other consistent count) encodes
successfully with a nil error. -/
theorem C5_hl_mismatch_not_rejected :
    ToBytes hdrHL0 =
      ([1, 0, 0, 0, 0, 0, 0, 0, 0, 0, 0, 0, 0, 0, 0, 202],
        CalcCRC8 hdrHL0, none) := by decide

/-- C6: when every bit field is within its declared width, the byte at
offset 2 of the `ToBytes` output packs PRF, RTE, ENA, CMP, PR most
significant field first: it equals `PRF*64 + RTE*32 + ENA*8 + CMP*4 + PR`. -/
theorem C6_flags_byte_packing (h : EgtsPkgHeader) (h1 : h.PRF < 4)
    (h2 : h.RTE < 2) (h3 : h.ENA < 4) (h4 : h.CMP < 2) (h5 : h.PR < 4) :
    (ToBytes h).1.getD 2 0 =
      h.PRF * 64 + h.RTE * 32 + h.ENA * 8 + h.CMP * 4 + h.PR := by
  rw [toBytes_of_inrange h h1 h2 h3 h4 h5]
  simp [List.getD]

/-- A header exercising every bit field with a distinct nonzero value:
flags byte `01 1 10 1 11` = 119. -/
def hdrFlags : EgtsPkgHeader :=
  { PRV := 1, SKID := 0, PRF := 1, RTE := 1, ENA := 2, CMP := 1, PR := 3,
    HL := 11, HE := 0, FDL := 0, PID := 0, PT := 0, PRA := 0, RCA := 0,
    TTL := 0, HCS := 0 }

theorem C6_flags_byte_packing_witness :
    (ToBytes hdrFlags).1.getD 2 0 = 119 :=
  C6_flags_byte_packing hdrFlags (by decide) (by decide) (by decide)
    (by decide) (by decide)

/-- C7: for a header with in-range bit fields and Go-representable field
values, the first ten output bytes are PRV, SKID, the flags byte, HL, HE,
FDL little-endian, PID little-endian, PT; in particular byte 7 is
`PID % 256` and byte 8 is `PID / 256`, exact on the whole 16-bit range. -/
theorem C7_first_ten_bytes (h : EgtsPkgHeader) (h1 : h.PRF < 4)
    (h2 : h.RTE < 2) (h3 : h.ENA < 4) (h4 : h.CMP < 2) (h5 : h.PR < 4)
    (hPRV : h.PRV < 256) (hSKID : h.SKID < 256) (hHL : h.HL < 256)
    (hHE : h.HE < 256) (hFDL : h.FDL < 65536) (hPID : h.PID < 65536)
    (hPT : h.PT < 256) :
    (ToBytes h).1.take 10 =
      [h.PRV, h.SKID,
       h.PRF * 64 + h.RTE * 32 + h.ENA * 8 + h.CMP * 4 + h.PR,
       h.HL, h.HE, h.FDL % 256, h.FDL / 256, h.PID % 256, h.PID / 256,
       h.PT] ∧
    (ToBytes h).1.getD 7 0 = h.PID % 256 ∧
    (ToBytes h).1.getD 8 0 = h.PID / 256 := by
  have hFDLd : h.FDL / 256 < 256 := by omega
  have hPIDd : h.PID / 256 < 256 := by omega
  rw [toBytes_of_inrange h h1 h2 h3 h4 h5]
  simp [List.getD, u8, u16le, Nat.mod_eq_of_lt, hPRV, hSKID, hHL, hHE,
    hPT, Nat.mod_eq_of_lt hFDLd, Nat.mod_eq_of_lt hPIDd]

/-- A header whose PID is the cyclic-counter maximum 65535. -/
def hdrPid : EgtsPkgHeader :=
  { PRV := 1, SKID := 2, PRF := 0, RTE := 0, ENA := 0, CMP := 0, PR := 0,
    HL := 11, HE := 0, FDL := 300, PID := 65535, PT := 2, PRA := 0,
    RCA := 0, TTL := 0, HCS := 0 }

theorem C7_first_ten_bytes_witness :
    (ToBytes hdrPid).1.take 10 = [1, 2, 0, 11, 0, 44, 1, 255, 255, 2] ∧
    (ToBytes hdrPid).1.getD 7 0 = 255 ∧
    (ToBytes hdrPid).1.getD 8 0 = 255 :=
  C7_first_ten_bytes hdrPid (by decide) (by decide) (by decide) (by decide)
    (by decide) (by decide) (by decide) (by decide) (by decide) (by decide)
    (by decide) (by decide)

/-- C9: `ToBytes` mutates its receiver.  After a successful call the
receiver's post-state has its `HCS` field overwritten with the value
computed by `CalcCRC8`, and every other field is unchanged. -/
theorem C9_receiver_mutation (h : EgtsPkgHeader) (bs : List Nat)
    (h' : EgtsPkgHeader) (hok : ToBytes h = (bs, h', none)) :
    h'.HCS = (CalcCRC8 h).HCS ∧ h'.PRV = h.PRV ∧ h'.SKID = h.SKID ∧
    h'.PRF = h.PRF ∧ h'.RTE = h.RTE ∧ h'.ENA = h.ENA ∧ h'.CMP = h.CMP ∧
    h'.PR = h.PR ∧ h'.HL = h.HL ∧ h'.HE = h.HE ∧ h'.FDL = h.FDL ∧
    h'.PID = h.PID ∧ h'.PT = h.PT ∧ h'.PRA = h.PRA ∧ h'.RCA = h.RCA ∧
    h'.TTL = h.TTL := by
  unfold ToBytes at hok
  rcases hbt : bitsToByte (flagsBits h) with ⟨v, oe⟩
  rw [hbt] at hok
  cases oe with
  | some e => simp at hok
  | none =>
    simp only [Prod.mk.injEq] at hok
    obtain ⟨-, hh, -⟩ := hok
    rw [← hh]
    simp [CalcCRC8]

theorem C9_receiver_mutation_witness :
    (CalcCRC8 hdr0).HCS = (CalcCRC8 hdr0).HCS ∧
    (CalcCRC8 hdr0).PRV = hdr0.PRV ∧ (CalcCRC8 hdr0).SKID = hdr0.SKID ∧
    (CalcCRC8 hdr0).PRF = hdr0.PRF ∧ (CalcCRC8 hdr0).RTE = hdr0.RTE ∧
    (CalcCRC8 hdr0).ENA = hdr0.ENA ∧ (CalcCRC8 hdr0).CMP = hdr0.CMP ∧
    (CalcCRC8 hdr0).PR = hdr0.PR ∧ (CalcCRC8 hdr0).HL = hdr0.HL ∧
    (CalcCRC8 hdr0).HE = hdr0.HE ∧ (CalcCRC8 hdr0).FDL = hdr0.FDL ∧
    (CalcCRC8 hdr0).PID = hdr0.PID ∧ (CalcCRC8 hdr0).PT = hdr0.PT ∧
    (CalcCRC8 hdr0).PRA = hdr0.PRA ∧ (CalcCRC8 hdr0).RCA = hdr0.RCA ∧
    (CalcCRC8 hdr0).TTL = hdr0.TTL :=
  C9_receiver_mutation hdr0
    [0, 0, 0, 11, 0, 0, 0, 0, 0, 0, 0, 0, 0, 0, 0, 202]
    (CalcCRC8 hdr0) (by decide)

/-- C10: whenever `ToBytes` returns a non-nil error, the byte slice it
returns alongside the error is empty. -/
theorem C10_error_gives_empty_slice (h : EgtsPkgHeader) (bs : List Nat)
    (h' : EgtsPkgHeader) (e : EgtsError)
    (herr : ToBytes h = (bs, h', some e)) : bs = [] := by
  unfold ToBytes at herr
  rcases hbt : bitsToByte (flagsBits h) with ⟨v, oe⟩
  rw [hbt] at herr
  cases oe with
  | some e2 =>
    simp only [Prod.mk.injEq] at herr
    exact herr.1.symm
  | none => simp at herr

theorem C10_error_gives_empty_slice_witness : ([] : List Nat) = [] :=
  C10_error_gives_empty_slice hdrPR4 [] hdrPR4 EgtsError.InvalidField
    (by decide)

/-! ### The packet codec, modelled from the spec

The repository's source contains no packet-level encoder and no decode
path at all, so the two functions below are modelled from the spec.  The
CRC-8 and CRC-16 algorithms are identified in the spec only as protocol
constants, so both are abstract function parameters here; every theorem
about the codec quantifies over them. -/

/-- Modelled from the spec: the packet-level `Encode` of §4.5 is missing
from the source.  It sets `FDL` to the payload length, delegates header
encoding (to the source's `ToBytes`), appends the raw payload, and appends
the little-endian CRC-16 of the payload only if the payload is non-empty.
Result is the produced bytes with an optional error. -/
def EncodePkg (crc16 : List Nat → Nat) (h : EgtsPkgHeader)
    (payload : List Nat) : List Nat × Option EgtsError :=
  match ToBytes { h with FDL := payload.length } with
  | (_, _, some e) => ([], some e)
  | (hb, _, none) =>
    (hb ++ payload ++
      (if 0 < payload.length then u16le (crc16 payload) else []), none)

/-- Modelled from the spec: the decode path of §4.1/§4.5 is missing from
the source.  Following the spec's words: read `HL` first to know the
header span; fail `Truncated` if fewer bytes are available than `HL`
declares; recompute the CRC-8 over the span minus its last byte and
compare with the transmitted HCS, failing `ChecksumMismatch` on mismatch;
fail `UnsupportedVersion` when `PRV` is not 1; read the fixed fields at
the wire-format offsets, the routing fields only when `RTE = 1`; then read
exactly `FDL` payload bytes and, when `FDL > 0`, two more SFRCS bytes
validated against the CRC-16 of the payload, failing `Truncated` or
`PayloadChecksumMismatch` as appropriate. -/
def DecodePkg (crc8 crc16 : List Nat → Nat) (bs : List Nat) :
    Except DecodeError (EgtsPkgHeader × List Nat) :=
  let hl := bs.getD 3 0
  if bs.length < hl then .error .Truncated
  else
    let span := bs.take hl
    let hcs := span.getD (hl - 1) 0
    if crc8 (span.take (hl - 1)) % 256 ≠ hcs then .error .ChecksumMismatch
    else if bs.getD 0 0 ≠ 1 then .error .UnsupportedVersion
    else
      let flags := bs.getD 2 0
      let rte := flags / 32 % 2
      let fdl := bs.getD 5 0 + 256 * bs.getD 6 0
      let rest := bs.drop hl
      if rest.length < fdl + (if 0 < fdl then 2 else 0) then
        .error .Truncated
      else
        let payload := rest.take fdl
        if 0 < fdl ∧ crc16 payload % 65536 ≠
            rest.getD fdl 0 + 256 * rest.getD (fdl + 1) 0 then
          .error .PayloadChecksumMismatch
        else
          .ok ({ PRV := bs.getD 0 0, SKID := bs.getD 1 0,
                 PRF := flags / 64, RTE := rte, ENA := flags / 8 % 4,
                 CMP := flags / 4 % 2, PR := flags % 4, HL := hl,
                 HE := bs.getD 4 0, FDL := fdl,
                 PID := bs.getD 7 0 + 256 * bs.getD 8 0,
                 PT := bs.getD 9 0,
                 PRA := if rte = 1 then
                     bs.getD 10 0 + 256 * bs.getD 11 0 else 0,
                 RCA := if rte = 1 then
                     bs.getD 12 0 + 256 * bs.getD 13 0 else 0,
                 TTL := if rte = 1 then bs.getD 14 0 else 0,
                 HCS := hcs }, payload)

/-- The round-trip header: valid field values, `RTE = 0`, consistent
`HL = 11`. -/
def hdrRt : EgtsPkgHeader :=
  { PRV := 1, SKID := 0, PRF := 0, RTE := 0, ENA := 0, CMP := 0, PR := 0,
    HL := 11, HE := 0, FDL := 2, PID := 1, PT := 1, PRA := 0, RCA := 0,
    TTL := 0, HCS := 0 }

/-- Decoding the encoder's output for `hdrRt` with payload `[1, 2]` can
never return that payload: whichever values the CRC functions take, the
decoder either fails a check or returns the payload `[0, 0]` read out of
the unconditionally-written routing bytes. -/
lemma decodePkg_garbage (crc8 crc16 : List Nat → Nat) (x y : Nat)
    (H : EgtsPkgHeader) :
    DecodePkg crc8 crc16
      [1, 0, 0, 11, 0, 2, 0, 1, 0, 1, 0, 0, 0, 0, 0, 202, 1, 2, x, y] ≠
      Except.ok (H, [1, 2]) := by
  unfold DecodePkg
  by_cases h8 : crc8 [1, 0, 0, 11, 0, 2, 0, 1, 0, 1] % 256 = 0
  · by_cases h16 : crc16 [0, 0] % 65536 = 0
    · simp [h8, h16]
    · simp [h8, h16]
  · simp [h8]

/-- C8: the claim says `Decode(Encode(h, payload))` reproduces the header
and payload exactly.  On the code this fails: the source encoder always
writes the routing block and a stub checksum, so a decoder following the
spec's wire format reads the routing bytes as payload.  For the valid
header `hdrRt` and payload `[1, 2]`, whatever CRC-8/CRC-16 algorithms are
plugged in, the decode of the encode never yields the payload `[1, 2]`
(for any header value). -/
theorem C8_roundtrip_fails (crc8 crc16 : List Nat → Nat)
    (H : EgtsPkgHeader) :
    DecodePkg crc8 crc16 (EncodePkg crc16 hdrRt [1, 2]).1 ≠
      Except.ok (H, [1, 2]) := by
  have henc : (EncodePkg crc16 hdrRt [1, 2]).1 =
      [1, 0, 0, 11, 0, 2, 0, 1, 0, 1, 0, 0, 0, 0, 0, 202, 1, 2,
        crc16 [1, 2] % 256, crc16 [1, 2] / 256 % 256] := by
    have hToB : ToBytes { hdrRt with FDL := ([1, 2] : List Nat).length } =
        ([1, 0, 0, 11, 0, 2, 0, 1, 0, 1, 0, 0, 0, 0, 0, 202],
          CalcCRC8 hdrRt, none) := by decide
    unfold EncodePkg
    rw [hToB]
    simp [u16le]
  rw [henc]
  exact decodePkg_garbage crc8 crc16 _ _ H
